import Mathlib

/-!
Verification development for the Network-Device-Monitor backend.

Shallow embedding of the core pipeline pieces the specification talks
about: the SQLite inventory store (`upsert_device` in
`backend/app/storage/sqlite.py`), the discovery merge
(`scan` in `backend/app/services/discovery.py`), the ping parser
(`ping_device` in `backend/app/services/monitoring.py`), the per-device
monitoring step (`monitoring_tick` in `backend/app/scheduler/jobs.py`)
and the OUI vendor lookup (`backend/app/utils/oui.py`).

Conventions: Python `None`/missing dict keys become `Option.none`; SQL
`NULL` likewise.  The `tags` TEXT column always receives a JSON string
from `upsert_device` (`json.dumps(data.get("tags") or {})`), so it is
modelled as the parsed string-to-string association list.  Machine
floats only ever come from parsing decimal literals and are compared,
never combined arithmetically, so they are modelled as exact rationals.
-/

namespace NetMon

/-- A row of the `devices` table
(`backend/app/storage/sqlite.py`, `SCHEMA_SQL`). -/
structure Row where
  id : Option String
  ip : Option String
  mac : Option String
  hostname : Option String
  vendor : Option String
  device_type : Option String
  status : Option String
  first_seen : Option Int
  last_seen : Option Int
  tags : List (String × String)
deriving DecidableEq, Repr

/-- The `data` dict passed to `upsert_device`: every field may be
absent/None.  `tags` is `none` when the key is absent or `None`. -/
structure PartialDevice where
  id : Option String
  ip : Option String
  mac : Option String
  hostname : Option String
  vendor : Option String
  device_type : Option String
  status : Option String
  first_seen : Option Int
  last_seen : Option Int
  tags : Option (List (String × String))
deriving DecidableEq, Repr

/-- Python truthiness of an optional string (`if mac and ip:`):
`None` and `""` are falsy. -/
def truthy : Option String → Bool
  | none => false
  | some s => s ≠ ""

/-- The re-keying delete step of `upsert_device`
(`sqlite.py` lines 36-44): when the partial carries truthy `mac` and
`ip`, an existing row with `ip = data["ip"]`, `id = data["ip"]` and
`mac IS NULL` is deleted (`DELETE FROM devices WHERE id=?`). -/
def rekeyDelete (db : List Row) (p : PartialDevice) : List Row :=
  if truthy p.mac && truthy p.ip then
    if db.any (fun r => r.ip == p.ip && r.id == p.ip && r.mac == none) then
      db.filter (fun r => !(r.id == p.ip))
    else db
  else db

/-- The `ON CONFLICT(id) DO UPDATE` clause (`sqlite.py` lines 51-60).
`excluded.tags` is `json.dumps(data.get("tags") or {})`, which is never
NULL, so `COALESCE(excluded.tags, devices.tags)` always takes the
excluded value. -/
def coalesceRow (r : Row) (p : PartialDevice) : Row :=
  { id := r.id
    ip := p.ip <|> r.ip
    mac := p.mac <|> r.mac
    hostname := p.hostname <|> r.hostname
    vendor := p.vendor <|> r.vendor
    device_type := p.device_type <|> r.device_type
    status := p.status <|> r.status
    first_seen := r.first_seen <|> p.first_seen
    last_seen := p.last_seen <|> r.last_seen
    tags := p.tags.getD [] }

/-- The plain `INSERT` branch: every column takes the partial's value;
`tags` takes the JSON of `data.get("tags") or {}`. -/
def insertRow (p : PartialDevice) : Row :=
  { id := p.id
    ip := p.ip
    mac := p.mac
    hostname := p.hostname
    vendor := p.vendor
    device_type := p.device_type
    status := p.status
    first_seen := p.first_seen
    last_seen := p.last_seen
    tags := p.tags.getD [] }

/-- `upsert_device` (`backend/app/storage/sqlite.py`, lines 30-76):
the optional re-keying delete, then `INSERT ... ON CONFLICT(id) DO
UPDATE`.  A NULL `id` never conflicts in SQL, hence the plain insert in
the `none` branch. -/
def upsertDevice (db : List Row) (p : PartialDevice) : List Row :=
  match p.id with
  | some i =>
    if (rekeyDelete db p).any (fun r => r.id == some i) then
      (rekeyDelete db p).map (fun r => if r.id == some i then coalesceRow r p else r)
    else rekeyDelete db p ++ [insertRow p]
  | none => rekeyDelete db p ++ [insertRow p]

/-- Stored `id`s (the non-NULL ones) are pairwise distinct: the column
is the table's PRIMARY KEY. -/
def IdsNodup (db : List Row) : Prop := (db.filterMap Row.id).Nodup

/-! ## Discovery merge (`backend/app/services/discovery.py`, `scan`) -/

/-- A probe sighting as a dict in the `scan` merge.  ARP entries carry
`ip`/`mac`/`source`; ICMP appends `{ip, mac: None, source: "icmp"}`;
mDNS entries carry `ip`/`mac`/`hostname`/`service`/`source`. -/
structure Sighting where
  ip : String
  mac : Option String
  hostname : Option String
  service : Option String
  source : String
deriving DecidableEq, Repr

/-- One step of the ICMP merge loop (`scan` lines 337-340): append the
alive IP as an IP-only entry unless already seen; `seen_ips` is a set,
modelled by list membership. -/
def addIcmp (acc : List Sighting × List String) (ip : String) :
    List Sighting × List String :=
  if ip ∈ acc.2 then acc
  else (acc.1 ++ [⟨ip, none, none, none, "icmp"⟩], acc.2 ++ [ip])

/-- One step of the mDNS merge loop (`scan` lines 345-349): append the
whole mDNS entry when its ip is truthy and not yet seen; otherwise the
entry is dropped (nothing is attached to existing entries). -/
def addMdns (acc : List Sighting × List String) (e : Sighting) :
    List Sighting × List String :=
  if e.ip ≠ "" ∧ e.ip ∉ acc.2 then (acc.1 ++ [e], acc.2 ++ [e.ip])
  else acc

/-- The merge of `scan` (`discovery.py` lines 326-353) as a function of
the three probe outputs: start from the ARP devices, seed `seen_ips`
with their ips, then fold the ICMP alive ips and the mDNS entries. -/
def scanMerge (arp : List Sighting) (alive : List String)
    (mdns : List Sighting) : List Sighting :=
  let init : List Sighting × List String := (arp, arp.map (·.ip))
  let afterIcmp := alive.foldl addIcmp init
  (mdns.foldl addMdns afterIcmp).1

/-! ## Ping parsing (`backend/app/services/monitoring.py`, `ping_device`) -/

/-- The dict returned by `ping_device`. -/
structure PingResult where
  ip : String
  status : String
  latency_avg : Option Rat
  latency_min : Option Rat
  latency_max : Option Rat
  packet_loss : Rat
deriving DecidableEq, Repr

/-- Characters matched by the regex class `[\d.]`. -/
def isNumChar (c : Char) : Bool := c.isDigit || c == '.'

/-- Decimal value of a digit string (`float` of an all-digit group). -/
def digitsToNat (l : List Char) : Nat :=
  l.foldl (fun acc c => 10 * acc + (c.toNat - 48)) 0

/-- `re.search(r"(\d+)% packet loss", output)`: leftmost position with
a nonempty digit run immediately followed by the literal; the group is
that run (`%` is not a digit, so the greedy run is forced maximal). -/
def searchPacketLoss : List Char → Option (List Char)
  | [] => none
  | c :: rest =>
    let run := (c :: rest).takeWhile Char.isDigit
    let after := (c :: rest).dropWhile Char.isDigit
    if run ≠ [] ∧ "% packet loss".toList.isPrefixOf after then some run
    else searchPacketLoss rest

/-- Attempt the rtt regex
`rtt min/avg/max/mdev = ([\d.]+)/([\d.]+)/([\d.]+)/[\d.]+ ms`
anchored at the head of `s`: each `[\d.]+` group is the maximal run of
digits/dots (the following `/` or space is outside the class). -/
def matchRttAt (s : List Char) : Option (List Char × List Char × List Char) :=
  if "rtt min/avg/max/mdev = ".toList.isPrefixOf s then
    let s0 := s.drop "rtt min/avg/max/mdev = ".toList.length
    let g1 := s0.takeWhile isNumChar
    match s0.dropWhile isNumChar with
    | '/' :: s1 =>
      let g2 := s1.takeWhile isNumChar
      match s1.dropWhile isNumChar with
      | '/' :: s2 =>
        let g3 := s2.takeWhile isNumChar
        match s2.dropWhile isNumChar with
        | '/' :: s3 =>
          let g4 := s3.takeWhile isNumChar
          let s4 := s3.dropWhile isNumChar
          if g1 ≠ [] ∧ g2 ≠ [] ∧ g3 ≠ [] ∧ g4 ≠ [] ∧
              " ms".toList.isPrefixOf s4 then
            some (g1, g2, g3)
          else none
        | _ => none
      | _ => none
    | _ => none
  else none

/-- `re.search` for the rtt pattern: leftmost matching position. -/
def searchRtt : List Char → Option (List Char × List Char × List Char)
  | [] => none
  | c :: rest =>
    match matchRttAt (c :: rest) with
    | some g => some g
    | none => searchRtt rest

/-- Python `float()` applied to a `[\d.]+` group: at most one dot and
at least one digit, read as an exact decimal rational (the parsed
values are only stored and compared, never combined, so the decimal
rational is a faithful stand-in for the IEEE value).  `none` models a
`ValueError` (e.g. `"1..2"`), which the outer `except` turns into the
`error` result. -/
def parsePyFloat (s : List Char) : Option Rat :=
  let intPart := s.takeWhile Char.isDigit
  match s.dropWhile Char.isDigit with
  | [] => if intPart ≠ [] then some (digitsToNat intPart : Rat) else none
  | '.' :: frac =>
    if frac.all Char.isDigit ∧ (intPart ≠ [] ∨ frac ≠ []) then
      some ((digitsToNat intPart : Rat) +
        (digitsToNat frac : Rat) / ((10 : Rat) ^ frac.length))
    else none
  | _ => none

/-- `ping_device` (`monitoring.py` lines 27-88) as a function of the
subprocess exit code and its decoded stdout.  Nonzero exit code gives
the down/100%/null result before any parsing; exit code 0 parses the
loss and rtt lines; an unparsable rtt group raises inside the `try`,
caught as the `error` result. -/
def pingParse (ip : String) (returncode : Int) (output : String) : PingResult :=
  if returncode ≠ 0 then ⟨ip, "down", none, none, none, 100⟩
  else
    let chars := output.toList
    let packet_loss : Rat :=
      match searchPacketLoss chars with
      | some run => (digitsToNat run : Rat)
      | none => 0
    match searchRtt chars with
    | some (g1, g2, g3) =>
      match parsePyFloat g1, parsePyFloat g2, parsePyFloat g3 with
      | some lmin, some lavg, some lmax =>
        ⟨ip, if packet_loss < 100 then "up" else "down",
          some lavg, some lmin, some lmax, packet_loss⟩
      | _, _, _ => ⟨ip, "error", none, none, none, 100⟩
    | none =>
      ⟨ip, if packet_loss < 100 then "up" else "down",
        some 0, some 0, some 0, packet_loss⟩

/-! ## Per-device monitoring step
(`backend/app/scheduler/jobs.py`, `monitoring_tick` lines 115-192) -/

/-- A message broadcast over the WebSocket manager during a monitoring
tick: the `latency` message (sent when status is `"up"`) or a
`device_up`/`device_down` transition message. -/
inductive WsEvent where
  | latency (device_id ip : Option String)
      (latency_avg latency_min latency_max : Option Rat)
      (packet_loss : Rat) (ts : Int)
  | transition (etype : String) (device_id ip hostname vendor : Option String)
      (previous_status : Option String) (ts : Int)
deriving DecidableEq, Repr

/-- Whether a broadcast message is a `device_up`/`device_down`
transition message. -/
def isTransition : WsEvent → Bool
  | .transition .. => true
  | _ => false

/-- The broadcasts of the per-device loop of `monitoring_tick`
(`jobs.py` lines 139-178): the `latency` message when the new status is
`"up"`, then the `device_up`/`device_down` transition message when the
new status is `"up"`/`"down"` and differs from the stored one.  The
metric-sink write is an external collaborator and not modelled. -/
def monitorEvents (r : Row) (m : PingResult) (now : Int) : List WsEvent :=
  (if m.status = "up" then
    [.latency r.id r.ip m.latency_avg m.latency_min m.latency_max
      m.packet_loss now]
  else []) ++
  (if (m.status = "up" ∨ m.status = "down") ∧ some m.status ≠ r.status then
    [.transition (if m.status = "up" then "device_up" else "device_down")
      r.id r.ip r.hostname r.vendor r.status now]
  else [])

/-- The `{id, status, last_seen}` dict upserted at the end of the
per-device loop (`jobs.py` lines 181-192): the other keys are absent. -/
def monitorUpsertDict (r : Row) (m : PingResult) (now : Int) : PartialDevice :=
  { id := r.id
    ip := none, mac := none, hostname := none, vendor := none
    device_type := none
    status := if m.status = "up" ∨ m.status = "down"
      then some m.status else r.status
    first_seen := none
    last_seen := if m.status = "up" then some now else r.last_seen
    tags := none }

/-- The body of the per-device loop of `monitoring_tick` for one stored
device `r` and ping result `m` at time `now`: the guard
`if not ip or not device_id: continue`, then the broadcasts and the
single `{id, status, last_seen}` upsert.  Returns the broadcast
messages and the upsert calls issued. -/
def monitorStep (r : Row) (m : PingResult) (now : Int) :
    List WsEvent × List PartialDevice :=
  if truthy r.ip && truthy r.id then
    (monitorEvents r m now, [monitorUpsertDict r m now])
  else ([], [])

/-! ## OUI vendor lookup (`backend/app/utils/oui.py`) -/

/-- Characters kept by `re.sub(r"[^0-9a-fA-F]", "", ...)`. -/
def isHexChar (c : Char) : Bool :=
  ('0' ≤ c ∧ c ≤ '9') || ('a' ≤ c ∧ c ≤ 'f') || ('A' ≤ c ∧ c ≤ 'F')

/-- `_normalize_mac_prefix` (`oui.py` lines 28-39): uppercase, strip
everything that is not a hex digit, keep the first 6 characters (the
whole string when fewer remain — `List.take 6` covers both branches). -/
def normalizeMacOui (mac : String) : String :=
  String.mk (((mac.toList.map Char.toUpper).filter isHexChar).take 6)

/-- `lookup_vendor` (`oui.py` lines 193-202) over a given in-memory
cache (`_OUI_CACHE` is a dict, modelled as a lookup function): an empty
normalized key is falsy and short-circuits to `None`. -/
def lookupVendor (cache : String → Option String) (mac : String) :
    Option String :=
  let key := normalizeMacOui mac
  if key = "" then none else cache key

/-! ## Derived predicates and concrete instances used by the theorems -/

/-- The condition under which the re-keying branch of `upsert_device`
deletes the stored row `r`: the partial carries truthy `mac` and `ip`,
the partial's `ip` equals `r`'s id, and `r` is IP-only (`ip = id`,
`mac` NULL), so the `SELECT ... WHERE ip=? AND id=? AND mac IS NULL`
finds `r` (ids being unique). -/
def rekeyHit (p : PartialDevice) (r : Row) : Prop :=
  truthy p.mac = true ∧ truthy p.ip = true ∧ p.ip = r.id ∧
    r.ip = r.id ∧ r.mac = none

/-- The separator characters of the usual MAC formats: colon, dash,
dot ("none" is the empty separator). -/
def macSeps : List Char := [':', '-', '.']

/-- Two strings represent the same MAC address up to separator
characters and letter case: dropping separators and uppercasing gives
the same character sequence. -/
def sepCaseEquiv (m1 m2 : String) : Prop :=
  ((m1.toList.filter (fun c => !(macSeps.contains c))).map Char.toUpper) =
    ((m2.toList.filter (fun c => !(macSeps.contains c))).map Char.toUpper)

/-- Ping stdout with 4/4 replies and an rtt summary line (the exact
strings of the specification's parsing property). -/
def pingOutUp : String :=
  "4 packets transmitted, 4 received, 0% packet loss, time 3005ms\nrtt min/avg/max/mdev = 0.123/0.595/1.012/0.334 ms\n"

/-- Ping stdout reporting total loss and no rtt summary line. -/
def pingOutLoss : String :=
  "4 packets transmitted, 0 received, 100% packet loss, time 3005ms\n"

/-- An IP-only stored record: discovered via ICMP, keyed by its IP. -/
def rowIpOnly : Row :=
  ⟨some "192.0.2.7", some "192.0.2.7", none, none, none, none,
    some "unknown", some 100, some 100, [("source", "icmp")]⟩

/-- A discovery-shaped partial for the same IP once its MAC is known,
carrying no `first_seen` (id = mac per the effective-id rule). -/
def partIpMac : PartialDevice :=
  ⟨some "aa:bb:cc:dd:ee:01", some "192.0.2.7", some "aa:bb:cc:dd:ee:01",
    none, none, none, none, none, none, none⟩

/-- A partial addressed to the IP-keyed id itself while also carrying
the MAC and a later `first_seen`. -/
def partSameIdMac : PartialDevice :=
  ⟨some "192.0.2.7", some "192.0.2.7", some "aa:bb:cc:dd:ee:01",
    none, none, none, none, some 200, none, none⟩

/-- An IP-only stored record that has a hostname. -/
def rowHostname : Row :=
  ⟨some "192.0.2.7", some "192.0.2.7", none, some "printer.local", none,
    none, some "up", some 100, some 100, [("source", "icmp")]⟩

/-- A partial addressed to that record's id carrying mac+ip and no
hostname. -/
def partNoHostname : PartialDevice :=
  ⟨some "192.0.2.7", some "192.0.2.7", some "aa:bb:cc:dd:ee:01",
    none, none, none, none, none, none, none⟩

/-- A discovery-shaped upsert writing `tags = {source: arp}`. -/
def partDiscovery : PartialDevice :=
  ⟨some "aa:bb:cc:dd:ee:02", some "192.0.2.9", some "aa:bb:cc:dd:ee:02",
    none, none, none, some "unknown", some 50, some 50,
    some [("source", "arp")]⟩

/-- The monitoring-shaped upsert of `monitoring_tick`: only id, status
and last_seen (no `tags` key in the dict). -/
def partMonitor : PartialDevice :=
  ⟨some "aa:bb:cc:dd:ee:02", none, none, none, none, none, some "up",
    none, some 123, none⟩

/-- A monitoring-shaped upsert addressed to the IP-keyed record. -/
def partMonitorSameId : PartialDevice :=
  ⟨some "192.0.2.7", none, none, none, none, none, some "up",
    none, some 123, none⟩

/-- A stored device in the initial `unknown` state. -/
def rowUnknown : Row :=
  ⟨some "d1", some "10.0.0.8", none, none, none, none, some "unknown",
    some 1, some 1, [("source", "arp")]⟩

/-- A stored device whose last classification was `up`. -/
def rowUp : Row :=
  ⟨some "d2", some "10.0.0.9", none, none, none, none, some "up",
    some 1, some 4, [("source", "arp")]⟩

/-- A ping result classified `up`. -/
def pingUpRes : PingResult := ⟨"10.0.0.8", "up", some 1, some 1, some 1, 0⟩

/-- A ping result classified `error` (probe-execution failure). -/
def pingErrRes : PingResult := ⟨"10.0.0.9", "error", none, none, none, 100⟩

/-- An ARP sighting without a hostname. -/
def arpPlain : Sighting := ⟨"10.0.0.1", some "aa:bb:cc:dd:ee:03", none, none, "arp"⟩

/-- An mDNS sighting for a fresh IP carrying a hostname. -/
def mdnsEntry : Sighting :=
  ⟨"10.0.0.5", none, some "host.local", some "_http._tcp.local.", "mdns"⟩

/-- An ARP sighting as produced twice by a probe (e.g. duplicate
arp-scan reply lines). -/
def arpDup : Sighting := ⟨"192.0.2.1", some "aa:bb:cc:dd:ee:04", none, none, "arp"⟩

/-- A one-entry OUI cache for witnesses. -/
def cacheTest : String → Option String :=
  fun k => if k = "AABBCC" then some "TestVendor" else none

/-! ## Store lemmas -/

lemma ids_unique {db : List Row} (hnd : IdsNodup db) :
    ∀ a ∈ db, ∀ b ∈ db, ∀ i : String, a.id = some i → b.id = some i → a = b := by
  induction db with
  | nil => simp
  | cons x xs ih =>
    intro a ha b hb i hai hbi
    unfold IdsNodup at hnd
    rw [List.filterMap_cons] at hnd
    rcases hx : x.id with _ | j
    · rw [hx] at hnd
      rcases List.mem_cons.mp ha with rfl | ha'
      · rw [hai] at hx; cases hx
      rcases List.mem_cons.mp hb with rfl | hb'
      · rw [hbi] at hx; cases hx
      exact ih hnd a ha' b hb' i hai hbi
    · rw [hx] at hnd
      have hj : j ∉ xs.filterMap Row.id := (List.nodup_cons.mp hnd).1
      have hnd' : IdsNodup xs := (List.nodup_cons.mp hnd).2
      rcases List.mem_cons.mp ha with rfl | ha' <;>
        rcases List.mem_cons.mp hb with rfl | hb'
      · rfl
      · exfalso
        rw [hai] at hx
        cases hx
        exact hj (List.mem_filterMap.mpr ⟨b, hb', hbi⟩)
      · exfalso
        rw [hbi] at hx
        cases hx
        exact hj (List.mem_filterMap.mpr ⟨a, ha', hai⟩)
      · exact ih hnd' a ha' b hb' i hai hbi

lemma rekeyDelete_sublist (db : List Row) (p : PartialDevice) :
    List.Sublist (rekeyDelete db p) db := by
  unfold rekeyDelete
  split
  · split
    · exact List.filter_sublist db
    · exact List.Sublist.refl db
  · exact List.Sublist.refl db

lemma rekeyDelete_nodup {db : List Row} (p : PartialDevice)
    (hnd : IdsNodup db) : IdsNodup (rekeyDelete db p) :=
  hnd.sublist ((rekeyDelete_sublist db p).filterMap Row.id)

lemma mem_of_mem_rekeyDelete {db : List Row} {p : PartialDevice} {r : Row}
    (h : r ∈ rekeyDelete db p) : r ∈ db :=
  (rekeyDelete_sublist db p).subset h

/-- A stored row that is not the target of the re-keying delete
survives `rekeyDelete`. -/
lemma mem_rekeyDelete {db : List Row} {p : PartialDevice} {r : Row} {i : String}
    (hnd : IdsNodup db) (hr : r ∈ db) (hid : r.id = some i)
    (hhit : ¬ rekeyHit p r) : r ∈ rekeyDelete db p := by
  unfold rekeyDelete
  split
  case isFalse => exact hr
  case isTrue hmt =>
    split
    case isFalse => exact hr
    case isTrue hsel =>
      rcases List.any_eq_true.mp hsel with ⟨w, hw, hwp⟩
      have hwip : w.ip = p.ip := beq_iff_eq.mp (Bool.and_elim_left (Bool.and_elim_left hwp))
      have hwid : w.id = p.ip := beq_iff_eq.mp (Bool.and_elim_right (Bool.and_elim_left hwp))
      have hwmac : w.mac = none := beq_iff_eq.mp (Bool.and_elim_right hwp)
      -- r survives the DELETE: its id differs from the partial's ip
      refine List.mem_filter.mpr ⟨hr, ?_⟩
      have hne : ¬ (r.id = p.ip) := by
        intro hrip
        -- then w and r share the id `some i`, hence w = r and the hit fires
        have hwid' : w.id = some i := by rw [hwid, ← hrip, hid]
        have : w = r := ids_unique hnd w hw r hr i hwid' hid
        subst this
        exact hhit ⟨Bool.and_elim_left hmt, Bool.and_elim_right hmt,
          hrip.symm, by rw [hwip, hrip], hwmac⟩
      simp [hne]

/-- How one `upsert_device` call affects the row stored under id `i`,
when the partial does not trigger the re-keying delete of that row:
the row is untouched, or (when the partial addresses id `i`) replaced
by its coalesced update; and a row under id `i` still exists. -/
lemma upsert_update_chars {db : List Row} {p : PartialDevice} {r : Row} {i : String}
    (hnd : IdsNodup db) (hr : r ∈ db) (hid : r.id = some i)
    (hhit : ¬ rekeyHit p r) :
    (∀ r' ∈ upsertDevice db p, r'.id = some i →
        r' = r ∨ (p.id = some i ∧ r' = coalesceRow r p)) ∧
    (∃ r' ∈ upsertDevice db p, r'.id = some i) := by
  have hr1 : r ∈ rekeyDelete db p := mem_rekeyDelete hnd hr hid hhit
  have hnd1 : IdsNodup (rekeyDelete db p) := rekeyDelete_nodup p hnd
  rcases hpid : p.id with _ | pid
  · -- plain insert of a NULL-id row
    simp only [upsertDevice, hpid]
    constructor
    · intro r' hr' hr'i
      rcases List.mem_append.mp hr' with h | h
      · left
        exact ids_unique hnd1 r' h r hr1 i hr'i hid
      · exfalso
        rcases List.mem_singleton.mp h with rfl
        rw [show (insertRow p).id = p.id from rfl, hpid] at hr'i
        cases hr'i
    · exact ⟨r, List.mem_append.mpr (Or.inl hr1), hid⟩
  · simp only [upsertDevice, hpid]
    by_cases hconf : ((rekeyDelete db p).any fun r => r.id == some pid) = true
    · simp only [if_pos hconf]
      constructor
      · intro r' hr' hr'i
        rcases List.mem_map.mp hr' with ⟨r0, hr0, hr0e⟩
        by_cases hc : (r0.id == some pid) = true
        · rw [if_pos hc] at hr0e
          have hr0id : r0.id = some pid := beq_iff_eq.mp hc
          have hri : r'.id = r0.id := by rw [← hr0e]; rfl
          have hpidi : pid = i := by
            rw [hri, hr0id] at hr'i
            exact (Option.some.injEq _ _).mp hr'i
          subst hpidi
          have : r0 = r := ids_unique hnd1 r0 hr0 r hr1 pid hr0id hid
          subst this
          exact Or.inr ⟨rfl, hr0e.symm⟩
        · rw [if_neg hc] at hr0e
          subst hr0e
          left
          exact ids_unique hnd1 r0 hr0 r hr1 i hr'i hid
      · by_cases hpi : pid = i
        · subst hpi
          refine ⟨coalesceRow r p, ?_, ?_⟩
          · refine List.mem_map.mpr ⟨r, hr1, ?_⟩
            rw [if_pos (beq_iff_eq.mpr hid)]
          · show r.id = some pid
            exact hid
        · refine ⟨r, ?_, hid⟩
          refine List.mem_map.mpr ⟨r, hr1, ?_⟩
          have hcn : ¬ ((r.id == some pid) = true) := by
            simp only [hid, beq_iff_eq, Option.some.injEq]
            exact fun h => hpi h.symm
          rw [if_neg hcn]
    · simp only [if_neg hconf]
      constructor
      · intro r' hr' hr'i
        rcases List.mem_append.mp hr' with h | h
        · left
          exact ids_unique hnd1 r' h r hr1 i hr'i hid
        · exfalso
          rcases List.mem_singleton.mp h with rfl
          have hins : (insertRow p).id = some pid := hpid
          rw [hins] at hr'i
          have hpi : pid = i := (Option.some.injEq _ _).mp hr'i
          subst hpi
          exact hconf (List.any_eq_true.mpr ⟨r, hr1, beq_iff_eq.mpr hid⟩)
      · exact ⟨r, List.mem_append.mpr (Or.inl hr1), hid⟩

lemma orElse_self (x : Option String) : (x <|> x) = x := by
  cases x <;> simp

/-! ## Claim theorems -/

/-- C7 counterexample: the claim "for every device id and every
sequence of upsert_device calls addressed to that same id, once the
stored record's first_seen is non-null it is never changed by any later
upsert for that id, regardless of the first_seen value supplied in
later partial records" fails: for the IP-only record `rowIpOnly`
(id = ip = 192.0.2.7, first_seen 100) the upsert `partSameIdMac`
addressed to that same id but carrying mac+ip triggers the re-keying
delete, and the re-created row stores the supplied first_seen 200. -/
theorem first_seen_changed_by_same_id_upsert :
    rowIpOnly.first_seen = some 100 ∧ partSameIdMac.id = rowIpOnly.id ∧
      (upsertDevice [rowIpOnly] partSameIdMac).map Row.first_seen = [some 200] := by
  decide

/-- C7 (amended): once a stored record's first_seen is non-null, it is
unchanged by any later upsert addressed to that id — except when the
upsert carries a truthy mac together with ip equal to that id while the
record is IP-only (ip = id, mac NULL): that re-keying delete re-creates
the row with the supplied first_seen. -/
theorem first_seen_immutable
    (db : List Row) (p : PartialDevice) (r : Row) (i : String) (t : Int)
    (hnd : IdsNodup db) (hr : r ∈ db) (hid : r.id = some i)
    (_hpid : p.id = some i) (hfs : r.first_seen = some t)
    (hhit : ¬ rekeyHit p r) :
    (∀ r' ∈ upsertDevice db p, r'.id = some i → r'.first_seen = some t) ∧
    (∃ r' ∈ upsertDevice db p, r'.id = some i ∧ r'.first_seen = some t) := by
  have hch := upsert_update_chars hnd hr hid hhit
  have hall : ∀ r' ∈ upsertDevice db p, r'.id = some i → r'.first_seen = some t := by
    intro r' hr' hri
    rcases hch.1 r' hr' hri with rfl | ⟨_, rfl⟩
    · exact hfs
    · show (r.first_seen <|> p.first_seen) = some t
      rw [hfs]
      simp
  refine ⟨hall, ?_⟩
  rcases hch.2 with ⟨r', hr', hri⟩
  exact ⟨r', hr', hri, hall r' hr' hri⟩

/-- C7 witness. -/
theorem first_seen_immutable_witness :
    IdsNodup [rowIpOnly] ∧ ¬ rekeyHit partMonitorSameId rowIpOnly ∧
      ((∀ r' ∈ upsertDevice [rowIpOnly] partMonitorSameId,
          r'.id = some "192.0.2.7" → r'.first_seen = some 100) ∧
        (∃ r' ∈ upsertDevice [rowIpOnly] partMonitorSameId,
          r'.id = some "192.0.2.7" ∧ r'.first_seen = some 100)) :=
  ⟨by unfold IdsNodup; decide, by unfold rekeyHit; decide,
    first_seen_immutable [rowIpOnly] partMonitorSameId rowIpOnly
      "192.0.2.7" 100 (by unfold IdsNodup; decide) (by decide) (by decide)
      (by decide) (by decide) (by unfold rekeyHit; decide)⟩

/-- C9 counterexample: the claim "for every stored record with a
non-null hostname, an upsert_device call whose partial record omits
hostname leaves the stored hostname unchanged and non-null" fails: for
the IP-only record `rowHostname` (hostname printer.local) the upsert
`partNoHostname` (same id, carries mac+ip, no hostname) triggers the
re-keying delete and the re-created row under the same id has hostname
NULL. -/
theorem hostname_nulled_by_rekey_upsert :
    rowHostname.hostname = some "printer.local" ∧
      partNoHostname.hostname = none ∧
      partNoHostname.id = rowHostname.id ∧
      (upsertDevice [rowHostname] partNoHostname).map Row.hostname = [none] := by
  decide

/-- C9 (amended): an upsert whose partial omits hostname (or supplies
it as null) leaves any stored non-null hostname unchanged — except when
the upsert carries a truthy mac together with ip equal to the record's
id while the record is IP-only (ip = id, mac NULL): that re-keying
delete re-creates the row from the partial alone, with hostname NULL. -/
theorem hostname_coalesce
    (db : List Row) (p : PartialDevice) (r : Row) (i : String) (h : String)
    (hnd : IdsNodup db) (hr : r ∈ db) (hid : r.id = some i)
    (hh : r.hostname = some h) (hph : p.hostname = none)
    (hhit : ¬ rekeyHit p r) :
    (∀ r' ∈ upsertDevice db p, r'.id = some i → r'.hostname = some h) ∧
    (∃ r' ∈ upsertDevice db p, r'.id = some i ∧ r'.hostname = some h) := by
  have hch := upsert_update_chars hnd hr hid hhit
  have hall : ∀ r' ∈ upsertDevice db p, r'.id = some i → r'.hostname = some h := by
    intro r' hr' hri
    rcases hch.1 r' hr' hri with rfl | ⟨_, rfl⟩
    · exact hh
    · show (p.hostname <|> r.hostname) = some h
      rw [hph, hh]
      simp
  refine ⟨hall, ?_⟩
  rcases hch.2 with ⟨r', hr', hri⟩
  exact ⟨r', hr', hri, hall r' hr' hri⟩

/-- C9 witness. -/
theorem hostname_coalesce_witness :
    IdsNodup [rowHostname] ∧ partMonitorSameId.hostname = none ∧
      ((∀ r' ∈ upsertDevice [rowHostname] partMonitorSameId,
          r'.id = some "192.0.2.7" → r'.hostname = some "printer.local") ∧
        (∃ r' ∈ upsertDevice [rowHostname] partMonitorSameId,
          r'.id = some "192.0.2.7" ∧ r'.hostname = some "printer.local")) :=
  ⟨by unfold IdsNodup; decide, by decide,
    hostname_coalesce [rowHostname] partMonitorSameId rowHostname
      "192.0.2.7" "printer.local" (by unfold IdsNodup; decide) (by decide)
      (by decide) (by decide) (by decide) (by unfold rekeyHit; decide)⟩

/-- The transition condition of the per-device loop, read off the
broadcast list: a `device_up`/`device_down` message is present iff the
new status is `up`/`down` and differs from the stored one. -/
lemma monitorEvents_any_isTransition (r : Row) (m : PingResult) (now : Int) :
    ((monitorEvents r m now).any isTransition) = true ↔
      ((m.status = "up" ∨ m.status = "down") ∧ some m.status ≠ r.status) := by
  unfold monitorEvents
  by_cases hc : (m.status = "up" ∨ m.status = "down") ∧ some m.status ≠ r.status
  · rw [if_pos hc]
    simp only [List.any_append, List.any_cons, List.any_nil]
    constructor
    · intro _
      exact hc
    · intro _
      by_cases hu : m.status = "up" <;> simp [hu, isTransition]
  · rw [if_neg hc]
    simp only [List.any_append, List.any_nil, Bool.or_false]
    constructor
    · intro h
      exfalso
      by_cases hu : m.status = "up" <;> simp [hu, isTransition] at h
    · intro h
      exact absurd h hc

/-- C3: in a monitoring tick, a transition message is broadcast iff the
newly computed status is `up`/`down` and differs from the stored one; a
ping classified `error` broadcasts no transition and the subsequent
upsert leaves the stored status unchanged. -/
theorem monitoring_transition_events
    (r : Row) (m : PingResult) (now : Int) (db : List Row) (i : String)
    (hip : truthy r.ip = true) (hidt : truthy r.id = true)
    (hid : r.id = some i) (hr : r ∈ db) (hnd : IdsNodup db) :
    (((monitorStep r m now).1.any isTransition) = true ↔
      ((m.status = "up" ∨ m.status = "down") ∧ some m.status ≠ r.status)) ∧
    (m.status = "error" →
      (∀ e ∈ (monitorStep r m now).1, isTransition e = false) ∧
      (∀ r' ∈ List.foldl upsertDevice db (monitorStep r m now).2,
        r'.id = some i → r'.status = r.status)) := by
  have hguard : (truthy r.ip && truthy r.id) = true := by rw [hip, hidt]; rfl
  have hstep : monitorStep r m now = (monitorEvents r m now, [monitorUpsertDict r m now]) := by
    unfold monitorStep
    rw [if_pos hguard]
  rw [hstep]
  constructor
  · exact monitorEvents_any_isTransition r m now
  · intro herr
    have hne : ¬ ((m.status = "up" ∨ m.status = "down") ∧ some m.status ≠ r.status) := by
      rw [herr]
      rintro ⟨h | h, _⟩ <;> exact absurd h (by decide)
    constructor
    · intro e he
      unfold monitorEvents at he
      rw [if_neg hne, List.append_nil, herr] at he
      simp at he
    · intro r' hr' hri
      have hp : List.foldl upsertDevice db [monitorUpsertDict r m now] =
          upsertDevice db (monitorUpsertDict r m now) := rfl
      rw [hp] at hr'
      have hud : (m.status = "up" ∨ m.status = "down") = False := by
        rw [herr]
        simp
      have hpid : (monitorUpsertDict r m now).id = some i := hid
      have hps : (monitorUpsertDict r m now).status = r.status := by
        unfold monitorUpsertDict
        simp only [hud]
        rw [if_neg (fun h => h.elim)]
      have hhit : ¬ rekeyHit (monitorUpsertDict r m now) r := by
        rintro ⟨hm, _, _, _, _⟩
        cases hm
      rcases (upsert_update_chars hnd hr hid hhit).1 r' hr' hri with rfl | ⟨_, rfl⟩
      · rfl
      · show ((monitorUpsertDict r m now).status <|> r.status) = r.status
        rw [hps]
        exact orElse_self r.status

/-- C3 witness. -/
theorem monitoring_transition_events_witness :
    truthy rowUp.ip = true ∧ rowUp.id = some "d2" ∧ IdsNodup [rowUp] ∧
      ((((monitorStep rowUp pingErrRes 9).1.any isTransition) = true ↔
        ((pingErrRes.status = "up" ∨ pingErrRes.status = "down") ∧
          some pingErrRes.status ≠ rowUp.status)) ∧
      (pingErrRes.status = "error" →
        (∀ e ∈ (monitorStep rowUp pingErrRes 9).1, isTransition e = false) ∧
        (∀ r' ∈ List.foldl upsertDevice [rowUp] (monitorStep rowUp pingErrRes 9).2,
          r'.id = some "d2" → r'.status = rowUp.status))) :=
  ⟨by decide, by decide, by unfold IdsNodup; decide,
    monitoring_transition_events rowUp pingErrRes 9 [rowUp] "d2"
      (by decide) (by decide) (by decide) (by decide)
      (by unfold IdsNodup; decide)⟩

/-- C4 counterexample: the claim "for every device whose stored status
is 'unknown', the monitoring tick's first classification emits no
device_up or device_down transition event" fails: for `rowUnknown`
(status `unknown`) an `up` ping result makes the tick broadcast a
`device_up` transition message. -/
theorem unknown_status_emits_transition :
    rowUnknown.status = some "unknown" ∧ pingUpRes.status = "up" ∧
      ((monitorStep rowUnknown pingUpRes 5).1.any isTransition) = true := by
  refine ⟨rfl, rfl, ?_⟩
  decide

/-- C4 (amended): a device stored with status `unknown` DOES emit a
transition event on its first classification whenever the newly
computed status is `up` or `down` (the code fires on any difference
from the stored value, and `unknown` differs from both); no event is
emitted only when the classification is neither `up` nor `down`. -/
theorem unknown_first_classification
    (r : Row) (m : PingResult) (now : Int)
    (hip : truthy r.ip = true) (hidt : truthy r.id = true)
    (hunk : r.status = some "unknown") :
    ((monitorStep r m now).1.any isTransition) = true ↔
      (m.status = "up" ∨ m.status = "down") := by
  have hguard : (truthy r.ip && truthy r.id) = true := by rw [hip, hidt]; rfl
  have hstep : monitorStep r m now = (monitorEvents r m now, [monitorUpsertDict r m now]) := by
    unfold monitorStep
    rw [if_pos hguard]
  rw [hstep]
  rw [monitorEvents_any_isTransition]
  constructor
  · exact fun h => h.1
  · intro h
    refine ⟨h, ?_⟩
    rw [hunk]
    rcases h with h | h <;> rw [h] <;> simp

/-- C4 witness. -/
theorem unknown_first_classification_witness :
    truthy rowUnknown.ip = true ∧ rowUnknown.status = some "unknown" ∧
      (((monitorStep rowUnknown pingUpRes 5).1.any isTransition) = true ↔
        (pingUpRes.status = "up" ∨ pingUpRes.status = "down")) :=
  ⟨by decide, rfl,
    unknown_first_classification rowUnknown pingUpRes 5
      (by decide) (by decide) rfl⟩

/-- C1 counterexample: the claim "an upsert carrying ip = X and mac = M
over an IP-only record (id = ip = X, first_seen = T) leaves exactly one
record with id = M, ip = X, mac = M and first_seen = T" fails on its
first_seen part: the re-keying branch deletes the old row and the fresh
insert stores the partial's first_seen (here NULL, not T = 100). -/
theorem rekey_drops_first_seen :
    rowIpOnly.first_seen = some 100 ∧ rowIpOnly.mac = none ∧
      rowIpOnly.id = rowIpOnly.ip ∧ partIpMac.ip = rowIpOnly.ip ∧
      partIpMac.mac = some "aa:bb:cc:dd:ee:01" ∧
      partIpMac.first_seen = none ∧
      (upsertDevice [rowIpOnly] partIpMac).map Row.first_seen = [none] := by
  decide

/-- C1 (amended): over a store whose only record for the device is the
IP-only row (id = ip = X, mac NULL) and which has no record keyed M, an
upsert carrying id = M, ip = X, mac = M leaves exactly one record with
id = M, having ip = X and mac = M, and no record with id = X remains —
but its first_seen is the value supplied by the partial (the stored T
is not carried over). -/
theorem rekey_merge
    (db : List Row) (p : PartialDevice) (r : Row) (x m : String)
    (hxm : x ≠ m) (hx : x ≠ "") (hm : m ≠ "") (_hnd : IdsNodup db)
    (hpid : p.id = some m) (hpip : p.ip = some x) (hpmac : p.mac = some m)
    (hr : r ∈ db) (hrid : r.id = some x) (hrip : r.ip = some x)
    (hrmac : r.mac = none) (hnoM : ∀ r' ∈ db, r'.id ≠ some m) :
    (upsertDevice db p).filter (fun r' => r'.id == some m) = [insertRow p] ∧
    (∀ r' ∈ upsertDevice db p, r'.id ≠ some x) ∧
    (insertRow p).id = some m ∧ (insertRow p).ip = some x ∧
    (insertRow p).mac = some m ∧ (insertRow p).first_seen = p.first_seen := by
  have hmt : (truthy p.mac && truthy p.ip) = true := by
    rw [hpmac, hpip]
    simp [truthy, hm, hx]
  have hsel : (db.any fun r' => r'.ip == p.ip && r'.id == p.ip && r'.mac == none) = true := by
    refine List.any_eq_true.mpr ⟨r, hr, ?_⟩
    rw [hrip, hpip, hrid, hrmac]
    simp
  have hdel : rekeyDelete db p = db.filter (fun r' => !(r'.id == p.ip)) := by
    unfold rekeyDelete
    rw [if_pos hmt, if_pos hsel]
  have hconf : ((rekeyDelete db p).any fun r' => r'.id == some m) = false := by
    rw [hdel]
    rw [List.any_eq_false]
    intro r' hr'
    have hmem : r' ∈ db := (List.mem_filter.mp hr').1
    simp [hnoM r' hmem]
  have hres : upsertDevice db p =
      db.filter (fun r' => !(r'.id == p.ip)) ++ [insertRow p] := by
    simp only [upsertDevice, hpid]
    rw [hconf]
    simp [hdel]
  refine ⟨?_, ?_, hpid, hpip, hpmac, rfl⟩
  · rw [hres, List.filter_append]
    have h1 : (db.filter (fun r' => !(r'.id == p.ip))).filter
        (fun r' => r'.id == some m) = [] := by
      rw [List.filter_eq_nil_iff]
      intro r' hr'
      have hmem : r' ∈ db := (List.mem_filter.mp hr').1
      simp [hnoM r' hmem]
    have h2 : List.filter (fun r' => r'.id == some m) [insertRow p] =
        [insertRow p] := by
      have : (insertRow p).id = some m := hpid
      simp [List.filter, this]
    rw [h1, h2, List.nil_append]
  · intro r' hr'
    rw [hres] at hr'
    rcases List.mem_append.mp hr' with h | h
    · have hne := (List.mem_filter.mp h).2
      intro hxeq
      rw [hxeq, hpip] at hne
      simp at hne
    · rcases List.mem_singleton.mp h with rfl
      have : (insertRow p).id = some m := hpid
      rw [this]
      intro hc
      exact hxm ((Option.some.injEq _ _).mp hc).symm

/-- C1 witness. -/
theorem rekey_merge_witness :
    IdsNodup [rowIpOnly] ∧ rowIpOnly.mac = none ∧
      ((upsertDevice [rowIpOnly] partIpMac).filter
          (fun r' => r'.id == some "aa:bb:cc:dd:ee:01") = [insertRow partIpMac] ∧
        (∀ r' ∈ upsertDevice [rowIpOnly] partIpMac, r'.id ≠ some "192.0.2.7") ∧
        (insertRow partIpMac).id = some "aa:bb:cc:dd:ee:01" ∧
        (insertRow partIpMac).ip = some "192.0.2.7" ∧
        (insertRow partIpMac).mac = some "aa:bb:cc:dd:ee:01" ∧
        (insertRow partIpMac).first_seen = partIpMac.first_seen) :=
  ⟨by unfold IdsNodup; decide, by decide,
    rekey_merge [rowIpOnly] partIpMac rowIpOnly "192.0.2.7"
      "aa:bb:cc:dd:ee:01" (by decide) (by decide) (by decide)
      (by unfold IdsNodup; decide) (by decide) (by decide) (by decide)
      (by decide) (by decide) (by decide) (by decide) (by decide)⟩

/-- C2: the invariant "every stored record's tags map contains a
source key, and a monitoring update carrying only id/status/last_seen
does not remove it" is violated by the code: `upsert_device` serializes
`json.dumps(data.get("tags") or {})`, which is never NULL, so the SQL
`COALESCE(excluded.tags, devices.tags)` (whose presence shows stored
tags were meant to be preserved) always takes the excluded value — a
monitoring-shaped upsert rewrites tags to the empty object.  Evaluated
here: discovery writes `{source: arp}`, the following monitoring-shaped
upsert leaves the same record with empty tags. -/
theorem monitoring_upsert_drops_source_tag :
    (upsertDevice [] partDiscovery).map Row.tags = [[("source", "arp")]] ∧
      partMonitor.tags = none ∧ partMonitor.id = partDiscovery.id ∧
      (upsertDevice (upsertDevice [] partDiscovery) partMonitor).map Row.tags
        = [[]] := by
  decide

/-! ## Discovery merge lemmas -/

/-- Invariant of the ICMP merge loop: every merged entry's ip is in
`seen_ips`, and distinct ips stay distinct (the loop only appends
unseen ips). -/
lemma icmp_fold (alive : List String) :
    ∀ acc : List Sighting × List String,
    (∀ x ∈ acc.1, x.ip ∈ acc.2) →
    (∀ x ∈ (alive.foldl addIcmp acc).1, x.ip ∈ (alive.foldl addIcmp acc).2) ∧
    ((acc.1.map Sighting.ip).Nodup →
      ((alive.foldl addIcmp acc).1.map Sighting.ip).Nodup) := by
  induction alive with
  | nil => exact fun acc h => ⟨h, fun hn => hn⟩
  | cons ip rest ih =>
    intro acc h
    rw [List.foldl_cons]
    have hstep : addIcmp acc ip =
        if ip ∈ acc.2 then acc
        else (acc.1 ++ [⟨ip, none, none, none, "icmp"⟩], acc.2 ++ [ip]) := rfl
    by_cases hin : ip ∈ acc.2
    · rw [hstep, if_pos hin]
      exact ih acc h
    · rw [hstep, if_neg hin]
      have hpre : ∀ x ∈ (acc.1 ++ [⟨ip, none, none, none, "icmp"⟩],
          acc.2 ++ [ip]).1, x.ip ∈ (acc.1 ++ [⟨ip, none, none, none, "icmp"⟩],
          acc.2 ++ [ip]).2 := by
        intro x hx
        rcases List.mem_append.mp hx with hx | hx
        · exact List.mem_append.mpr (Or.inl (h x hx))
        · rcases List.mem_singleton.mp hx with rfl
          exact List.mem_append.mpr (Or.inr (List.mem_singleton.mpr rfl))
      have hih := ih _ hpre
      refine ⟨hih.1, fun hnd => hih.2 ?_⟩
      have hipn : ip ∉ acc.1.map Sighting.ip := by
        intro hmem
        rcases List.mem_map.mp hmem with ⟨d, hd, hde⟩
        exact hin (hde ▸ h d hd)
      show (((acc.1 ++ [(⟨ip, none, none, none, "icmp"⟩ : Sighting)]).map Sighting.ip)).Nodup
      rw [List.map_append]
      refine List.Nodup.append hnd (List.nodup_singleton ip) ?_
      intro a ha hb
      rcases List.mem_singleton.mp hb with rfl
      exact hipn ha

/-- Invariant of the mDNS merge loop: merged ips stay in `seen_ips`,
distinct ips stay distinct, and every merged entry either was already
there or is an mDNS entry whose ip was unseen. -/
lemma mdns_fold (mdns : List Sighting) :
    ∀ acc : List Sighting × List String,
    (∀ x ∈ acc.1, x.ip ∈ acc.2) →
    (∀ x ∈ (mdns.foldl addMdns acc).1, x.ip ∈ (mdns.foldl addMdns acc).2) ∧
    ((acc.1.map Sighting.ip).Nodup →
      ((mdns.foldl addMdns acc).1.map Sighting.ip).Nodup) ∧
    (∀ e ∈ (mdns.foldl addMdns acc).1,
      e ∈ acc.1 ∨ (e ∈ mdns ∧ e.ip ∉ acc.2)) := by
  induction mdns with
  | nil => exact fun acc h => ⟨h, fun hn => hn, fun e he => Or.inl he⟩
  | cons e0 rest ih =>
    intro acc h
    rw [List.foldl_cons]
    have hstep : addMdns acc e0 =
        if e0.ip ≠ "" ∧ e0.ip ∉ acc.2 then (acc.1 ++ [e0], acc.2 ++ [e0.ip])
        else acc := rfl
    by_cases hc : e0.ip ≠ "" ∧ e0.ip ∉ acc.2
    · rw [hstep, if_pos hc]
      have hpre : ∀ x ∈ (acc.1 ++ [e0], acc.2 ++ [e0.ip]).1,
          x.ip ∈ (acc.1 ++ [e0], acc.2 ++ [e0.ip]).2 := by
        intro x hx
        rcases List.mem_append.mp hx with hx | hx
        · exact List.mem_append.mpr (Or.inl (h x hx))
        · rcases List.mem_singleton.mp hx with rfl
          exact List.mem_append.mpr (Or.inr (List.mem_singleton.mpr rfl))
      have hih := ih _ hpre
      refine ⟨hih.1, fun hnd => hih.2.1 ?_, ?_⟩
      · have hipn : e0.ip ∉ acc.1.map Sighting.ip := by
          intro hmem
          rcases List.mem_map.mp hmem with ⟨d, hd, hde⟩
          exact hc.2 (hde ▸ h d hd)
        show (((acc.1 ++ [e0]).map Sighting.ip)).Nodup
        rw [List.map_append]
        refine List.Nodup.append hnd (List.nodup_singleton e0.ip) ?_
        intro a ha hb
        rcases List.mem_singleton.mp hb with rfl
        exact hipn ha
      · intro e he
        rcases hih.2.2 e he with hmem | ⟨hr, hip⟩
        · rcases List.mem_append.mp hmem with hmem | hmem
          · exact Or.inl hmem
          · have he0 : e = e0 := List.mem_singleton.mp hmem
            subst he0
            exact Or.inr ⟨List.mem_cons_self e rest, hc.2⟩
        · refine Or.inr ⟨List.mem_cons_of_mem e0 hr, fun hin => ?_⟩
          exact hip (List.mem_append.mpr (Or.inl hin))
    · rw [hstep, if_neg hc]
      have hih := ih acc h
      exact ⟨hih.1, hih.2.1, fun e he =>
        (hih.2.2 e he).imp id (fun hx => ⟨List.mem_cons_of_mem e0 hx.1, hx.2⟩)⟩

/-- The mDNS merge loop only appends to the candidate list. -/
lemma mdns_fold_app (mdns : List Sighting) :
    ∀ acc : List Sighting × List String,
    ∃ t, (mdns.foldl addMdns acc).1 = acc.1 ++ t := by
  induction mdns with
  | nil => exact fun acc => ⟨[], (List.append_nil _).symm⟩
  | cons e0 rest ih =>
    intro acc
    rw [List.foldl_cons]
    have hstep : addMdns acc e0 =
        if e0.ip ≠ "" ∧ e0.ip ∉ acc.2 then (acc.1 ++ [e0], acc.2 ++ [e0.ip])
        else acc := rfl
    by_cases hc : e0.ip ≠ "" ∧ e0.ip ∉ acc.2
    · rw [hstep, if_pos hc]
      rcases ih (acc.1 ++ [e0], acc.2 ++ [e0.ip]) with ⟨t, ht⟩
      exact ⟨[e0] ++ t, by rw [ht, List.append_assoc]⟩
    · rw [hstep, if_neg hc]
      exact ih acc

/-- C6 counterexample: the claim "the merged candidate list returned by
scan contains no two entries with the same ip value (including ARP
probe outputs that themselves contain repeated IPs)" fails: an ARP
output repeating an IP (e.g. duplicate arp-scan reply lines) passes
through the merge untouched, since `seen_ips` only guards the ICMP and
mDNS additions. -/
theorem duplicate_arp_ips_survive :
    (scanMerge [arpDup, arpDup] [] []).map Sighting.ip
        = ["192.0.2.1", "192.0.2.1"] ∧
      ¬ ((scanMerge [arpDup, arpDup] [] []).map Sighting.ip).Nodup := by
  decide

/-- C6 (amended): whenever the ARP probe output itself carries pairwise
distinct IPs, the merged candidate list returned by scan contains no
two entries with the same ip value, for every ICMP and mDNS output. -/
theorem merged_ips_nodup (arp : List Sighting) (alive : List String)
    (mdns : List Sighting) (h : (arp.map Sighting.ip).Nodup) :
    ((scanMerge arp alive mdns).map Sighting.ip).Nodup := by
  have h0 : ∀ x ∈ ((arp, arp.map Sighting.ip) :
      List Sighting × List String).1, x.ip ∈ ((arp, arp.map Sighting.ip) :
      List Sighting × List String).2 :=
    fun x hx => List.mem_map.mpr ⟨x, hx, rfl⟩
  have hi := icmp_fold alive (arp, arp.map Sighting.ip) h0
  have hm := mdns_fold mdns (alive.foldl addIcmp (arp, arp.map Sighting.ip)) hi.1
  exact hm.2.1 (hi.2 h)

/-- C6 witness. -/
theorem merged_ips_nodup_witness :
    (([arpPlain].map Sighting.ip).Nodup) ∧
      ((scanMerge [arpPlain] ["10.0.0.2"] [mdnsEntry]).map Sighting.ip).Nodup :=
  ⟨by decide, merged_ips_nodup [arpPlain] ["10.0.0.2"] [mdnsEntry] (by decide)⟩

/-- C5 counterexample: the claim "every mDNS result only attaches its
hostname to the first existing candidate entry lacking a hostname, and
the merged candidate list contains no top-level entry whose only source
is mdns" fails: the merge appends an unseen-IP mDNS result as a new
top-level entry and never touches existing entries — here `arpPlain`
keeps no hostname while `mdnsEntry` (source mdns) appears at top
level. -/
theorem mdns_entry_at_top_level :
    scanMerge [arpPlain] [] [mdnsEntry] = [arpPlain, mdnsEntry] ∧
      arpPlain.hostname = none ∧ mdnsEntry.hostname = some "host.local" ∧
      mdnsEntry.source = "mdns" := by
  decide

/-- C5 (amended): mDNS results never modify existing candidate entries
(no hostname attachment occurs): the merged list extends the ARP+ICMP
merge unchanged, and every additional entry is an mDNS result whose ip
is absent from the ARP+ICMP merge — so mDNS entries with fresh IPs DO
appear as top-level entries. -/
theorem mdns_merge_appends (arp : List Sighting) (alive : List String)
    (mdns : List Sighting) :
    (∃ t, scanMerge arp alive mdns = scanMerge arp alive [] ++ t) ∧
    (∀ e ∈ scanMerge arp alive mdns, e ∉ scanMerge arp alive [] →
      e ∈ mdns ∧ e.ip ∉ (scanMerge arp alive []).map Sighting.ip) := by
  have h0 : ∀ x ∈ ((arp, arp.map Sighting.ip) :
      List Sighting × List String).1, x.ip ∈ ((arp, arp.map Sighting.ip) :
      List Sighting × List String).2 :=
    fun x hx => List.mem_map.mpr ⟨x, hx, rfl⟩
  have hi := icmp_fold alive (arp, arp.map Sighting.ip) h0
  have hbase : scanMerge arp alive [] =
      (alive.foldl addIcmp (arp, arp.map Sighting.ip)).1 := rfl
  constructor
  · rcases mdns_fold_app mdns (alive.foldl addIcmp (arp, arp.map Sighting.ip))
      with ⟨t, ht⟩
    exact ⟨t, by rw [hbase]; exact ht⟩
  · intro e he hnb
    have hm := mdns_fold mdns (alive.foldl addIcmp (arp, arp.map Sighting.ip)) hi.1
    rcases hm.2.2 e he with hmem | ⟨hr, hip⟩
    · exact absurd (hbase ▸ hmem) hnb
    · refine ⟨hr, fun hin => hip ?_⟩
      rw [hbase] at hin
      rcases List.mem_map.mp hin with ⟨d, hd, hde⟩
      exact hde ▸ hi.1 d hd

/-- C5 witness. -/
theorem mdns_merge_appends_witness :
    mdnsEntry ∈ scanMerge [arpPlain] [] [mdnsEntry] ∧
      mdnsEntry ∉ scanMerge [arpPlain] [] [] ∧
      mdnsEntry ∈ [mdnsEntry] ∧
      mdnsEntry.ip ∉ (scanMerge [arpPlain] [] []).map Sighting.ip :=
  ⟨by decide, by decide, by decide,
    ((mdns_merge_appends [arpPlain] [] [mdnsEntry]).2 mdnsEntry
      (by decide) (by decide)).2⟩

set_option maxRecDepth 10000 in
/-- C8 counterexample: the claim "when the output reports 4 packets
transmitted, 0 received, 100% packet loss, the result is status down,
packet_loss 100.0, and all latency fields null" fails when the ping
subprocess exits 0 with that output (the setting of the repository's
own 100%-loss unit test): the missing rtt line takes the parse
fallback, which sets the latency fields to 0.0, not null. -/
theorem ping_total_loss_latency_not_null :
    (pingParse "192.168.1.1" 0 pingOutLoss).status = "down" ∧
      (pingParse "192.168.1.1" 0 pingOutLoss).packet_loss = 100 ∧
      (pingParse "192.168.1.1" 0 pingOutLoss).latency_min ≠ none ∧
      (pingParse "192.168.1.1" 0 pingOutLoss).latency_min = some 0 := by
  refine ⟨?_, ?_, ?_, ?_⟩ <;> with_unfolding_all decide

set_option maxRecDepth 10000 in
/-- C8 (amended): with exit status 0 and the 4-received output carrying
the rtt summary, ping parsing yields status up, packet_loss 0.0 and
latencies min 0.123 / avg 0.595 / max 1.012; with exit status 0 and the
100%-loss output, it yields status down, packet_loss 100.0 and latency
fields 0.0 (the rtt-less fallback); the all-null latency result arises
when the ping process exits nonzero (which is how ping reports total
loss in practice). -/
theorem ping_parse_outputs :
    pingParse "192.168.1.1" 0 pingOutUp =
      ⟨"192.168.1.1", "up", some 0.595, some 0.123, some 1.012, 0⟩ ∧
    pingParse "192.168.1.1" 0 pingOutLoss =
      ⟨"192.168.1.1", "down", some 0, some 0, some 0, 100⟩ ∧
    pingParse "192.168.1.1" 1 pingOutLoss =
      ⟨"192.168.1.1", "down", none, none, none, 100⟩ := by
  refine ⟨?_, ?_, ?_⟩ <;> with_unfolding_all decide

/-- The normalization of `_normalize_mac_prefix` ignores the MAC
separator characters: stripping them before uppercasing and hex
filtering changes nothing, because a separator is unchanged by
uppercasing and is not a hex digit. -/
lemma hexFilter_strip (l : List Char) :
    (l.map Char.toUpper).filter isHexChar =
      ((l.filter (fun c => !(macSeps.contains c))).map Char.toUpper).filter
        isHexChar := by
  induction l with
  | nil => rfl
  | cons c rest ih =>
    by_cases hc : macSeps.contains c = true
    · have hsep : c = ':' ∨ c = '-' ∨ c = '.' := by
        simpa [macSeps, List.contains] using hc
      have hnothex : isHexChar (Char.toUpper c) = false := by
        rcases hsep with rfl | rfl | rfl <;> decide
      simp only [List.map_cons, List.filter_cons, hnothex, hc,
        Bool.not_true, cond_false, if_false]
      exact ih
    · have hc' : (!(macSeps.contains c)) = true := by
        simp [Bool.not_eq_true'] at hc ⊢
        exact hc
      simp only [List.filter_cons, hc', if_true, List.map_cons]
      by_cases hh : isHexChar (Char.toUpper c) = true
      · simp only [List.filter_cons, hh, if_true]
        rw [ih]
      · simp only [List.filter_cons, hh, if_false]
        exact ih

/-- C10: `lookup_vendor` is insensitive to MAC separator characters
(colon, dash, dot, none) and letter case, and its result depends only
on the normalized first 6 hex characters of the MAC, looked up in the
in-memory cache. -/
theorem lookup_vendor_format_insensitive
    (cache : String → Option String) (m1 m2 : String)
    (h : sepCaseEquiv m1 m2) :
    lookupVendor cache m1 = lookupVendor cache m2 ∧
    lookupVendor cache m1 =
      (if normalizeMacOui m1 = "" then none
        else cache (normalizeMacOui m1)) := by
  have hn : normalizeMacOui m1 = normalizeMacOui m2 := by
    unfold normalizeMacOui
    unfold sepCaseEquiv at h
    rw [hexFilter_strip m1.toList, hexFilter_strip m2.toList, h]
  exact ⟨by unfold lookupVendor; rw [hn], rfl⟩

/-- C10 witness. -/
theorem lookup_vendor_format_insensitive_witness :
    sepCaseEquiv "aa:bb:cc:dd:ee:ff" "AA-BB-CC-DD-EE-FF" ∧
      (lookupVendor cacheTest "aa:bb:cc:dd:ee:ff" =
          lookupVendor cacheTest "AA-BB-CC-DD-EE-FF" ∧
        lookupVendor cacheTest "aa:bb:cc:dd:ee:ff" =
          (if normalizeMacOui "aa:bb:cc:dd:ee:ff" = "" then none
            else cacheTest (normalizeMacOui "aa:bb:cc:dd:ee:ff"))) :=
  ⟨by unfold sepCaseEquiv; decide,
    lookup_vendor_format_insensitive cacheTest "aa:bb:cc:dd:ee:ff"
      "AA-BB-CC-DD-EE-FF" (by unfold sepCaseEquiv; decide)⟩

end NetMon
